import Mathlib

/-!
Verification development for the masbro-backend1 gateway (src/main.py).

The file shallowly embeds the FastAPI handlers of src/main.py as pure Lean
functions: the long-lived provider handle becomes an `Option GroqClient`
value, each downstream Groq call becomes a stub argument returning
`Except String _` (the error string standing for the Python exception text),
and each handler returns a record carrying its HTTP outcome, the number of
provider calls it issued, and the list of server-side log lines it wrote.

The chat, vision and transcription handlers are elided from src/main.py
(its line 61 states they were removed to save space); those components are
modelled from the specification, and each such definition is marked
`Modelled from the spec:`.
-/

namespace MasbroBackend

/-- The Groq client handle, holding the API key it was constructed with
(src/main.py line 41: `Groq(api_key=GROQ_API_KEY)`). -/
structure GroqClient where
  apiKey : String

/-- An HTTP error as carried by a FastAPI `HTTPException`: status code and
detail message. -/
structure HTTPError where
  statusCode : Nat
  detail : String

/-- src/main.py lines 36-44: the module-level client initialization. If the
environment variable is absent, `groq_client` is `None`; if construction
raises, the exception is caught and `groq_client` is also `None`.
`ctorFails` embeds whether `Groq(api_key=...)` raises. -/
def initGroqClient (envKey : Option String) (ctorFails : Bool) : Option GroqClient :=
  match envKey with
  | Option.none => Option.none
  | Option.some k => if ctorFails then Option.none else Option.some ⟨k⟩

/-- src/main.py lines 47-54: the `get_groq_client` dependency. A missing
client raises `HTTPException(500, "Server API key not configured or failed
to initialize.")` before the route body runs. -/
def get_groq_client (gc : Option GroqClient) : Except HTTPError GroqClient :=
  match gc with
  | Option.none => .error ⟨500, "Server API key not configured or failed to initialize."⟩
  | Option.some c => .ok c

/-- Outcome of one request to a route: the HTTP result (error, or status
code with body), how many provider calls the handler issued, and the log
lines the handler wrote. The handlers in src/main.py contain no logging
statement, so their `logs` component is always `[]`. -/
structure RouteOutcome (α : Type) where
  response : Except HTTPError (Nat × α)
  providerCalls : Nat
  logs : List String

/-- src/main.py lines 74-91: `POST /api/files`. The stub `filesCreate`
stands for `client.files.create`; its error string is `str(e)`. -/
def upload_file_for_fine_tuning (gc : Option GroqClient) (purpose : String)
    (filesCreate : String → Except String String) : RouteOutcome String :=
  match get_groq_client gc with
  | .error e => ⟨.error e, 0, []⟩
  | .ok _ =>
    match filesCreate purpose with
    | .ok obj => ⟨.ok (201, obj), 1, []⟩
    | .error msg => ⟨.error ⟨500, "Gagal upload file: " ++ msg⟩, 1, []⟩

/-- src/main.py lines 93-100: `GET /api/files`. -/
def list_files (gc : Option GroqClient)
    (filesList : Except String String) : RouteOutcome String :=
  match get_groq_client gc with
  | .error e => ⟨.error e, 0, []⟩
  | .ok _ =>
    match filesList with
    | .ok body => ⟨.ok (200, body), 1, []⟩
    | .error msg => ⟨.error ⟨500, "Gagal mengambil daftar file: " ++ msg⟩, 1, []⟩

/-- src/main.py lines 102-109: `DELETE /api/files/\x7bfile_id\x7d`. -/
def delete_file (gc : Option GroqClient) (fileId : String)
    (filesDelete : String → Except String Bool) : RouteOutcome (String × Bool) :=
  match get_groq_client gc with
  | .error e => ⟨.error e, 0, []⟩
  | .ok _ =>
    match filesDelete fileId with
    | .ok deleted => ⟨.ok (200, (fileId, deleted)), 1, []⟩
    | .error msg => ⟨.error ⟨500, "Gagal menghapus file: " ++ msg⟩, 1, []⟩

/-- src/main.py lines 115-120: the pydantic request schema for
`POST /api/fine_tunings`. The raw body may omit any field; `type` is
`Literal["lora"]` with default `"lora"`. -/
structure FineTuningBody where
  input_file_id : Option String
  name : Option String
  base_model : Option String
  type : Option String

/-- The validated form of `FineTuningCreate` after pydantic parsing. -/
structure FineTuningCreate where
  input_file_id : String
  name : String
  base_model : String
  type : String

/-- Pydantic validation of `FineTuningCreate`: every declared field without
a default is required, and `type`, when supplied, must equal the literal
`"lora"`; when omitted it defaults to `"lora"`. A failure is FastAPI's 422
validation error, returned before the handler body runs. -/
def parseFineTuningCreate (b : FineTuningBody) : Except String FineTuningCreate :=
  match b.input_file_id, b.name, b.base_model with
  | Option.some fid, Option.some nm, Option.some bm =>
    match b.type with
    | Option.none => .ok ⟨fid, nm, bm, "lora"⟩
    | Option.some t =>
      if t = "lora" then .ok ⟨fid, nm, bm, t⟩
      else .error ("Input should be 'lora'")
  | _, _, _ => .error "Field required"

/-- The argument record handed to `client.fine_tunings.create`
(src/main.py lines 132-137). -/
structure FineTuningArgs where
  input_file_id : String
  name : String
  base_model : String
  type : String

/-- Outcome of `POST /api/fine_tunings`: the HTTP result, the argument
records of every provider call issued (in order; the handler issues at most
one), and the log lines written. -/
structure FTCreateOutcome where
  response : Except HTTPError (Nat × String)
  calledWith : List FineTuningArgs
  logs : List String

/-- src/main.py lines 122-141: `POST /api/fine_tunings`. FastAPI resolves
the `get_groq_client` dependency, validates the body against
`FineTuningCreate`, and only then runs the handler, which issues one
`client.fine_tunings.create` call. -/
def create_fine_tuning_job (gc : Option GroqClient) (body : FineTuningBody)
    (ftCreate : FineTuningArgs → Except String String) : FTCreateOutcome :=
  match get_groq_client gc with
  | .error e => ⟨.error e, [], []⟩
  | .ok _ =>
    match parseFineTuningCreate body with
    | .error msg => ⟨.error ⟨422, msg⟩, [], []⟩
    | .ok jd =>
      match ftCreate ⟨jd.input_file_id, jd.name, jd.base_model, jd.type⟩ with
      | .ok obj => ⟨.ok (201, obj), [⟨jd.input_file_id, jd.name, jd.base_model, jd.type⟩], []⟩
      | .error msg =>
        ⟨.error ⟨500, "Gagal membuat pekerjaan fine-tuning: " ++ msg⟩,
          [⟨jd.input_file_id, jd.name, jd.base_model, jd.type⟩], []⟩

/-- src/main.py lines 143-153: `GET /api/fine_tunings`. -/
def list_fine_tuning_jobs (gc : Option GroqClient)
    (ftList : Except String String) : RouteOutcome String :=
  match get_groq_client gc with
  | .error e => ⟨.error e, 0, []⟩
  | .ok _ =>
    match ftList with
    | .ok body => ⟨.ok (200, body), 1, []⟩
    | .error msg => ⟨.error ⟨500, "Gagal mengambil daftar fine-tuning: " ++ msg⟩, 1, []⟩

/-- src/main.py lines 155-165: `GET /api/fine_tunings/\x7bjob_id\x7d`. -/
def get_fine_tuning_job (gc : Option GroqClient) (jobId : String)
    (ftGet : String → Except String String) : RouteOutcome String :=
  match get_groq_client gc with
  | .error e => ⟨.error e, 0, []⟩
  | .ok _ =>
    match ftGet jobId with
    | .ok body => ⟨.ok (200, body), 1, []⟩
    | .error msg =>
      ⟨.error ⟨500, "Gagal mengambil detail fine-tuning " ++ jobId ++ ": " ++ msg⟩, 1, []⟩

/-- src/main.py lines 167-177: `DELETE /api/fine_tunings/\x7bjob_id\x7d`. -/
def delete_fine_tuning_job (gc : Option GroqClient) (jobId : String)
    (ftDelete : String → Except String Bool) : RouteOutcome (String × Bool) :=
  match get_groq_client gc with
  | .error e => ⟨.error e, 0, []⟩
  | .ok _ =>
    match ftDelete jobId with
    | .ok deleted => ⟨.ok (200, (jobId, deleted)), 1, []⟩
    | .error msg =>
      ⟨.error ⟨500, "Gagal menghapus fine-tuning " ++ jobId ++ ": " ++ msg⟩, 1, []⟩

/-- Modelled from the spec: the chat/vision/transcription handlers are
elided from src/main.py (line 61), so the message roles of section 3 are
modelled from the specification. -/
inductive Role where
  | system
  | user
  | assistant

/-- Modelled from the spec: one typed content part of a multi-part message
(section 3: a part is tagged, for example "text" carrying a string or
"image-reference" carrying a URL). -/
inductive ContentPart where
  | text (s : String)
  | imageRef (url : String)

/-- Modelled from the spec: message content is either a plain text string
or an ordered sequence of typed content parts (section 3). -/
inductive MessageContent where
  | text (s : String)
  | parts (ps : List ContentPart)

/-- Modelled from the spec: a role-tagged message (section 3). -/
structure Message where
  role : Role
  content : MessageContent

/-- Modelled from the spec: the closed set of reasoning-effort levels
(section 3). -/
inductive ReasoningEffort where
  | none
  | default
  | low
  | medium
  | high

/-- Modelled from the spec: a ChatRequest (section 3) — ordered messages,
a model identifier, and an optional reasoning-effort level. -/
structure ChatRequest where
  messages : List Message
  model : String
  reasoning_effort : Option ReasoningEffort

/-- Modelled from the spec: the provider parameter bundle built by
`normalize` (section 4.1) — message list, model identifier, streaming
flag, and the reasoning-effort value only when the caller supplied one. -/
structure ProviderParams where
  messages : List Message
  model : String
  stream : Bool
  reasoning_effort : Option ReasoningEffort

/-- Modelled from the spec: `normalize` (section 4.1) — the elided chat
handlers reshape the request into provider call parameters, passing each
message through structurally unchanged (the provider wire format accepts
the same content union). -/
def normalize (req : ChatRequest) (stream : Bool) : ProviderParams :=
  { messages := req.messages.map (fun m => { role := m.role, content := m.content }),
    model := req.model,
    stream := stream,
    reasoning_effort := req.reasoning_effort }

/-- Modelled from the spec: the parameter keys actually serialized into
the provider call; the reasoning-effort key is emitted only when the
bundle carries a value, never as an explicit null (section 4.1). -/
def paramKeys (p : ProviderParams) : List String :=
  ["messages", "model", "stream"] ++
    (match p.reasoning_effort with
     | Option.some _ => ["reasoning_effort"]
     | Option.none => [])

/-- Modelled from the spec: one incremental unit of the provider stream
(section 4.2); it may or may not carry text content. -/
structure StreamUnit where
  content : Option String

/-- Modelled from the spec: the streaming relay loop of the elided
`POST /api/chat` handler (section 4.2) — for each incremental unit, if it
carries non-empty text content that text is emitted immediately as one
fragment; units without text content are discarded. -/
def streamChat : List StreamUnit → List String
  | [] => []
  | u :: us =>
    match u.content with
    | Option.some t => if t.isEmpty then streamChat us else t :: streamChat us
    | Option.none => streamChat us

/-- The non-empty text payloads of a unit list, in emission order: the
reference value the streaming relay must reproduce. -/
def nonEmptyTextUnits (units : List StreamUnit) : List String :=
  units.filterMap (fun u =>
    match u.content with
    | Option.some t => if t.isEmpty then Option.none else Option.some t
    | Option.none => Option.none)

/-- Modelled from the spec: the fixed set of accepted audio MIME types of
the elided transcription handler (section 4.4); consistent with scenario 4
of section 8, "audio/ogg" is not accepted. -/
def acceptedMimeTypes : List String :=
  ["audio/mpeg", "audio/mp4", "audio/wav", "audio/webm", "audio/x-wav", "audio/flac"]

/-- Modelled from the spec: the fixed set of accepted filename extensions
(section 4.4); consistent with scenario 4 of section 8, "ogg" is not
accepted. -/
def acceptedExtensions : List String :=
  ["mp3", "mp4", "wav", "webm", "m4a", "flac"]

/-- The characters after the last dot, if any dot occurs. -/
def extAfterDot : List Char → Option (List Char)
  | [] => Option.none
  | c :: t =>
    match extAfterDot t with
    | Option.some e => Option.some e
    | Option.none => if c = '.' then Option.some t else Option.none

/-- Modelled from the spec: extension extraction for the transcription
validation — the lowercased text after the last dot of the filename, empty
when the filename has no dot. -/
def fileExtension (filename : String) : String :=
  match extAfterDot filename.data with
  | Option.some e => String.mk (e.map Char.toLower)
  | Option.none => ""

/-- Whether the uploaded file passes the transcription validation: the
declared content type is an accepted audio MIME type, or — as fallback —
the filename extension is accepted (section 4.4). -/
def validTranscriptionFile (filename contentType : String) : Bool :=
  acceptedMimeTypes.contains contentType
    || acceptedExtensions.contains (fileExtension filename)

/-- Outcome of one transcription request: HTTP result and provider call
count. -/
structure TranscribeOutcome where
  result : Except HTTPError String
  providerCalls : Nat

/-- Modelled from the spec: the elided `POST /api/transcribe` handler
(sections 4.4 and 6) — 503 when the provider handle is absent, 400 before
any network call when the file has neither an accepted content type nor an
accepted extension, otherwise one provider call whose failure surfaces as
a 500. -/
def transcribe_route (gc : Option GroqClient) (filename contentType : String)
    (providerTranscribe : Except String String) : TranscribeOutcome :=
  match gc with
  | Option.none => ⟨.error ⟨503, "Service unavailable: provider not configured."⟩, 0⟩
  | Option.some _ =>
    if filename = "" then ⟨.error ⟨400, "Invalid file: filename missing."⟩, 0⟩
    else if validTranscriptionFile filename contentType then
      match providerTranscribe with
      | .ok text => ⟨.ok text, 1⟩
      | .error e => ⟨.error ⟨500, "Transcription failed: " ++ e⟩, 1⟩
    else ⟨.error ⟨400, "Invalid file type."⟩, 0⟩

/-- Whether `p` is an initial segment of `s` (character lists embed the
text handled by the composition path). -/
def isPre : List Char → List Char → Bool
  | [], _ => true
  | _ :: _, [] => false
  | p :: ps, c :: cs => p == c && isPre ps cs

/-- Whether the non-empty pattern `pat` occurs as a contiguous substring
of `s`. -/
def occursIn (pat : List Char) : List Char → Bool
  | [] => false
  | c :: t => isPre pat (c :: t) || occursIn pat t

/-- Left-to-right, non-overlapping replacement of every occurrence of
`pat` by `sub` (the semantics of Python str.replace). The Nat argument
counts characters still to be skipped because they belong to an occurrence
already replaced. -/
def replaceAllAux (pat sub : List Char) : List Char → Nat → List Char
  | [], _ => []
  | _ :: t, Nat.succ k => replaceAllAux pat sub t k
  | c :: t, 0 =>
    if isPre pat (c :: t) then sub ++ replaceAllAux pat sub t (pat.length - 1)
    else c :: replaceAllAux pat sub t 0

/-- Replace every occurrence of `pat` in `s` by `sub`. -/
def replaceAll (pat sub s : List Char) : List Char := replaceAllAux pat sub s 0

/-- Split `s` at the first occurrence of `pat`: the text before it and the
text after it, or nothing when `pat` does not occur. -/
def splitFirst (pat : List Char) : List Char → Option (List Char × List Char)
  | [] => Option.none
  | c :: t =>
    if isPre pat (c :: t) then Option.some ([], List.drop (pat.length - 1) t)
    else
      match splitFirst pat t with
      | Option.some (x, y) => Option.some (c :: x, y)
      | Option.none => Option.none

/-- `pat` has no border: no non-trivial proper suffix of `pat` is also an
initial segment of `pat`. This makes the first occurrence of `pat` in a
composed document unambiguous. -/
def noBorder (pat : List Char) : Prop :=
  ∀ k, 0 < k → k < pat.length → isPre (List.drop k pat) pat = false

/-- Modelled from the spec: the section-delimiter sequence of the
two-section document composed by the elided vision handler (section 4.3).
Its characters are pairwise distinct, so it has no border. -/
def sectionDelim : List Char := ['<', 'A', 'N', 'S', 'W', 'E', 'R', '>']

/-- Modelled from the spec: the visually similar but non-colliding
substitute written in place of the delimiter; it shares no character with
the delimiter. -/
def delimSubstitute : List Char := ['(', 'a', 'n', 's', 'w', 'e', 'r', ')']

/-- Modelled from the spec: sanitization of provider-returned reasoning
text — every occurrence of the section delimiter inside the reasoning text
is replaced by the non-colliding substitute (section 4.3). -/
def sanitizeReasoning (r : List Char) : List Char :=
  replaceAll sectionDelim delimSubstitute r

/-- Modelled from the spec: the composition rule of the non-streaming path
(section 4.3) — when non-empty auxiliary reasoning text is present, the
payload is the sanitized reasoning section, the section delimiter, then
the final answer; otherwise it is the main answer text unchanged. -/
def composeChat (mainText : List Char) (reasoning : Option (List Char)) : List Char :=
  match reasoning with
  | Option.some r =>
    if r = [] then mainText else sanitizeReasoning r ++ sectionDelim ++ mainText
  | Option.none => mainText

/-- Parse a composed document into its two sections, splitting at the
first occurrence of the section delimiter. -/
def parseSections (doc : List Char) : Option (List Char × List Char) :=
  splitFirst sectionDelim doc

/-- The liveness response shape of `GET /`. -/
structure RootResponse where
  status : String
  message : String

/-- src/main.py lines 183-186: the `GET /` handler. -/
def read_root : RootResponse :=
  ⟨"ok", "Groq Full API Capabilities Backend berjalan dengan baik."⟩

/-- `GET /` declares no provider dependency, so dispatch ignores the client
state entirely. -/
def handle_root (_gc : Option GroqClient) : RootResponse := read_root

/-- C3: when the provider API key is absent from the environment (or client
construction fails), the module-level handle is `None`, and every
provider-backed route short-circuits in the `get_groq_client` dependency:
it returns the one configuration-error response of src/main.py lines 50-53
(the spec-modelled transcription route returns its 503 variant), issues
zero provider calls, and — being a total function returning a response —
does not crash the process. -/
theorem missing_key_uniform_error (ctorFails : Bool) (purpose fileId jobId : String)
    (s1 : String → Except String String) (s2 : Except String String)
    (s3 : String → Except String Bool) (body : FineTuningBody)
    (s4 : FineTuningArgs → Except String String) (s5 : Except String String)
    (s6 : String → Except String String) (s7 : String → Except String Bool)
    (filename contentType : String) (s8 : Except String String) :
    upload_file_for_fine_tuning (initGroqClient Option.none ctorFails) purpose s1 =
        ⟨.error ⟨500, "Server API key not configured or failed to initialize."⟩, 0, []⟩ ∧
      list_files (initGroqClient Option.none ctorFails) s2 =
        ⟨.error ⟨500, "Server API key not configured or failed to initialize."⟩, 0, []⟩ ∧
      delete_file (initGroqClient Option.none ctorFails) fileId s3 =
        ⟨.error ⟨500, "Server API key not configured or failed to initialize."⟩, 0, []⟩ ∧
      create_fine_tuning_job (initGroqClient Option.none ctorFails) body s4 =
        ⟨.error ⟨500, "Server API key not configured or failed to initialize."⟩, [], []⟩ ∧
      list_fine_tuning_jobs (initGroqClient Option.none ctorFails) s5 =
        ⟨.error ⟨500, "Server API key not configured or failed to initialize."⟩, 0, []⟩ ∧
      get_fine_tuning_job (initGroqClient Option.none ctorFails) jobId s6 =
        ⟨.error ⟨500, "Server API key not configured or failed to initialize."⟩, 0, []⟩ ∧
      delete_fine_tuning_job (initGroqClient Option.none ctorFails) jobId s7 =
        ⟨.error ⟨500, "Server API key not configured or failed to initialize."⟩, 0, []⟩ ∧
      transcribe_route (initGroqClient Option.none ctorFails) filename contentType s8 =
        ⟨.error ⟨503, "Service unavailable: provider not configured."⟩, 0⟩ :=
  ⟨rfl, rfl, rfl, rfl, rfl, rfl, rfl, rfl⟩

/-- C7: on every non-streaming route, a failure raised by the downstream
provider call surfaces as one HTTP 500 response carrying the diagnostic
message of src/main.py; the provider is called exactly once (never
retried), and the handler still returns a response, so the failure is
scoped to the request. -/
theorem provider_failure_single_500 (c : GroqClient)
    (e purpose fileId jobId fid nm bm : String) :
    upload_file_for_fine_tuning (Option.some c) purpose (fun _ => .error e) =
        ⟨.error ⟨500, "Gagal upload file: " ++ e⟩, 1, []⟩ ∧
      list_files (Option.some c) (.error e) =
        ⟨.error ⟨500, "Gagal mengambil daftar file: " ++ e⟩, 1, []⟩ ∧
      delete_file (Option.some c) fileId (fun _ => .error e) =
        ⟨.error ⟨500, "Gagal menghapus file: " ++ e⟩, 1, []⟩ ∧
      create_fine_tuning_job (Option.some c)
          ⟨Option.some fid, Option.some nm, Option.some bm, Option.some "lora"⟩
          (fun _ => .error e) =
        ⟨.error ⟨500, "Gagal membuat pekerjaan fine-tuning: " ++ e⟩,
          [⟨fid, nm, bm, "lora"⟩], []⟩ ∧
      list_fine_tuning_jobs (Option.some c) (.error e) =
        ⟨.error ⟨500, "Gagal mengambil daftar fine-tuning: " ++ e⟩, 1, []⟩ ∧
      get_fine_tuning_job (Option.some c) jobId (fun _ => .error e) =
        ⟨.error ⟨500, "Gagal mengambil detail fine-tuning " ++ jobId ++ ": " ++ e⟩, 1, []⟩ ∧
      delete_fine_tuning_job (Option.some c) jobId (fun _ => .error e) =
        ⟨.error ⟨500, "Gagal menghapus fine-tuning " ++ jobId ++ ": " ++ e⟩, 1, []⟩ := by
  refine ⟨rfl, rfl, rfl, ?_, rfl, rfl, rfl⟩
  simp [create_fine_tuning_job, parseFineTuningCreate, get_groq_client]

/-- C8, counterexample: the claim says the diagnostic message of a
downstream failure is logged server-side; at this concrete failing input
the handler echoes the message in the 500 response but writes no log line
at all (src/main.py lines 84-91 contain no logging statement), so nothing
— in particular not the diagnostic message — is logged. -/
theorem diagnostic_unlogged_counterexample :
    (upload_file_for_fine_tuning (Option.some ⟨"key"⟩) "fine-tune"
        (fun _ => .error "boom")).response =
        .error ⟨500, "Gagal upload file: boom"⟩ ∧
      (upload_file_for_fine_tuning (Option.some ⟨"key"⟩) "fine-tune"
        (fun _ => .error "boom")).logs = [] :=
  ⟨rfl, rfl⟩

/-- C8, amended: for every downstream failure the caller-visible 500
response carries the exception text verbatim (unredacted) inside its
diagnostic message, but the handler writes no server-side log line. -/
theorem diagnostic_echoed_verbatim_unlogged (c : GroqClient)
    (e purpose jobId fid nm bm : String) :
    ((upload_file_for_fine_tuning (Option.some c) purpose (fun _ => .error e)).response =
        .error ⟨500, "Gagal upload file: " ++ e⟩ ∧
      (upload_file_for_fine_tuning (Option.some c) purpose (fun _ => .error e)).logs = []) ∧
    ((create_fine_tuning_job (Option.some c)
          ⟨Option.some fid, Option.some nm, Option.some bm, Option.some "lora"⟩
          (fun _ => .error e)).response =
        .error ⟨500, "Gagal membuat pekerjaan fine-tuning: " ++ e⟩ ∧
      (create_fine_tuning_job (Option.some c)
          ⟨Option.some fid, Option.some nm, Option.some bm, Option.some "lora"⟩
          (fun _ => .error e)).logs = []) ∧
    ((get_fine_tuning_job (Option.some c) jobId (fun _ => .error e)).response =
        .error ⟨500, "Gagal mengambil detail fine-tuning " ++ jobId ++ ": " ++ e⟩ ∧
      (get_fine_tuning_job (Option.some c) jobId (fun _ => .error e)).logs = []) := by
  refine ⟨⟨rfl, rfl⟩, ⟨?_, ?_⟩, rfl, rfl⟩ <;>
    simp [create_fine_tuning_job, parseFineTuningCreate, get_groq_client]

/-- C9: the `GET /` liveness endpoint always returns the fixed JSON object
with status "ok" and a string message, whatever the provider handle state
is. -/
theorem read_root_liveness (gc : Option GroqClient) :
    handle_root gc =
        ⟨"ok", "Groq Full API Capabilities Backend berjalan dengan baik."⟩ ∧
      (handle_root gc).status = "ok" ∧
      (handle_root gc).message = read_root.message :=
  ⟨rfl, rfl, rfl⟩

/-- C10: a `POST /api/fine_tunings` body whose `type` field is present and
differs from "lora" is rejected by pydantic with a 422 validation error and
the provider is never called; every argument record the route hands to
`client.fine_tunings.create` carries `type = "lora"`; and an omitted `type`
field defaults to "lora". -/
theorem fine_tuning_type_lora (c : GroqClient) (body : FineTuningBody)
    (ftCreate : FineTuningArgs → Except String String) :
    ((∃ t, body.type = Option.some t ∧ t ≠ "lora") →
        (∃ msg, (create_fine_tuning_job (Option.some c) body ftCreate).response =
            .error ⟨422, msg⟩) ∧
          (create_fine_tuning_job (Option.some c) body ftCreate).calledWith = []) ∧
      (∀ args ∈ (create_fine_tuning_job (Option.some c) body ftCreate).calledWith,
        args.type = "lora") ∧
      (body.type = Option.none →
        ∀ jd, parseFineTuningCreate body = .ok jd → jd.type = "lora") := by
  have hparse : ∀ jd, parseFineTuningCreate body = .ok jd → jd.type = "lora" := by
    intro jd hjd
    unfold parseFineTuningCreate at hjd
    split at hjd
    · cases hbt : body.type with
      | none =>
        simp only [hbt] at hjd
        injection hjd with h2
        subst h2
        rfl
      | some t =>
        simp only [hbt] at hjd
        split_ifs at hjd with h
        injection hjd with h2
        subst h2
        exact h
    · exact absurd hjd (by simp)
  refine ⟨?_, ?_, fun _ => hparse⟩
  · rintro ⟨t, ht, hne⟩
    have hperr : ∃ msg, parseFineTuningCreate body = .error msg := by
      unfold parseFineTuningCreate
      split
      · refine ⟨"Input should be 'lora'", ?_⟩
        rw [ht]
        simp [hne]
      · exact ⟨"Field required", rfl⟩
    obtain ⟨msg, hmsg⟩ := hperr
    constructor
    · exact ⟨msg, by simp [create_fine_tuning_job, get_groq_client, hmsg]⟩
    · simp [create_fine_tuning_job, get_groq_client, hmsg]
  · intro args hargs
    unfold create_fine_tuning_job at hargs
    simp only [get_groq_client] at hargs
    cases hp : parseFineTuningCreate body with
    | error msg =>
      simp only [hp] at hargs
      simp at hargs
    | ok jd =>
      simp only [hp] at hargs
      cases hc : ftCreate ⟨jd.input_file_id, jd.name, jd.base_model, jd.type⟩ with
      | ok obj =>
        simp only [hc] at hargs
        simp at hargs
        rw [hargs]
        exact hparse jd hp
      | error m =>
        simp only [hc] at hargs
        simp at hargs
        rw [hargs]
        exact hparse jd hp

/-- C10, witness: a concrete body with `type = "qlora"` is rejected with a
422 validation error and the provider stub is never invoked. -/
theorem fine_tuning_type_lora_witness :
    (∃ msg, (create_fine_tuning_job (Option.some ⟨"key"⟩)
        ⟨Option.some "file-1", Option.some "job", Option.some "base", Option.some "qlora"⟩
        (fun _ => .ok "created")).response = .error ⟨422, msg⟩) ∧
      (create_fine_tuning_job (Option.some ⟨"key"⟩)
        ⟨Option.some "file-1", Option.some "job", Option.some "base", Option.some "qlora"⟩
        (fun _ => .ok "created")).calledWith = [] :=
  (fine_tuning_type_lora ⟨"key"⟩
      ⟨Option.some "file-1", Option.some "job", Option.some "base", Option.some "qlora"⟩
      (fun _ => .ok "created")).1 ⟨"qlora", rfl, by decide⟩

/-- C1: for every sequence of incremental units the provider emits, the
streaming relay emits exactly the non-empty text payloads, one fragment
per such unit and in emission order, and nothing for units without text
content; hence the concatenation of the emitted fragments equals the
concatenation of the non-empty text units. -/
theorem streaming_relay_exact (units : List StreamUnit) :
    streamChat units = nonEmptyTextUnits units ∧
      String.join (streamChat units) = String.join (nonEmptyTextUnits units) := by
  have h : streamChat units = nonEmptyTextUnits units := by
    induction units with
    | nil => rfl
    | cons u us ih =>
      cases hc : u.content with
      | none => simp [streamChat, nonEmptyTextUnits, List.filterMap_cons, hc, ih]
      | some t =>
        cases ht : t.isEmpty <;>
          simp [streamChat, nonEmptyTextUnits, List.filterMap_cons, hc, ht, ih]
  exact ⟨h, by rw [h]⟩

/-- C2: `normalize` passes the message list through unchanged — no message
dropped, added or reordered, and each message keeps its role and its exact
content shape (plain text or multi-part list). -/
theorem normalize_preserves_messages (req : ChatRequest) (stream : Bool) :
    (normalize req stream).messages = req.messages := by
  show req.messages.map (fun m => { role := m.role, content := m.content }) = req.messages
  induction req.messages with
  | nil => rfl
  | cons m ms ih => cases m; simp [ih]

/-- C5: the reasoning-effort key appears in the serialized provider
parameter bundle exactly when the caller supplied a reasoning-effort
value; when omitted the key is absent entirely, not sent as an explicit
null. -/
theorem reasoning_effort_key_iff_supplied (req : ChatRequest) (stream : Bool) :
    ((paramKeys (normalize req stream)).contains "reasoning_effort" =
        req.reasoning_effort.isSome) ∧
      (req.reasoning_effort = Option.none →
        paramKeys (normalize req stream) = ["messages", "model", "stream"]) := by
  cases he : req.reasoning_effort <;>
    simp [paramKeys, normalize, he]

/-- C5, witness: with the reasoning effort omitted, the serialized bundle
has no reasoning-effort key; with it supplied, the key is present. -/
theorem reasoning_effort_key_iff_supplied_witness :
    paramKeys (normalize ⟨[], "llama-3.1-8b", Option.none⟩ true) =
        ["messages", "model", "stream"] ∧
      (paramKeys (normalize ⟨[], "gpt-oss-120b", Option.some ReasoningEffort.low⟩ true)).contains
          "reasoning_effort" = true :=
  ⟨(reasoning_effort_key_iff_supplied ⟨[], "llama-3.1-8b", Option.none⟩ true).2 rfl,
   (reasoning_effort_key_iff_supplied ⟨[], "gpt-oss-120b", Option.some ReasoningEffort.low⟩ true).1⟩

/-- C6: a transcription upload whose filename extension is accepted is
accepted even when its declared content type is not in the accepted MIME
set (the provider is called); a file with neither an accepted content type
nor an accepted extension is rejected with a 400 validation error and the
provider is never called. -/
theorem transcribe_extension_fallback (c : GroqClient) (filename contentType : String)
    (stub : Except String String) :
    (fileExtension filename ∈ acceptedExtensions → filename ≠ "" →
        (transcribe_route (Option.some c) filename contentType stub).providerCalls = 1) ∧
      (contentType ∉ acceptedMimeTypes →
        fileExtension filename ∉ acceptedExtensions →
          (∃ msg, (transcribe_route (Option.some c) filename contentType stub).result =
              .error ⟨400, msg⟩) ∧
            (transcribe_route (Option.some c) filename contentType stub).providerCalls = 0) := by
  constructor
  · intro hext hfn
    unfold transcribe_route
    rw [if_neg hfn]
    have hval : validTranscriptionFile filename contentType = true := by
      simp [validTranscriptionFile, hext]
    rw [if_pos hval]
    cases stub <;> rfl
  · intro hmime hext
    have hval : validTranscriptionFile filename contentType = false := by
      simp [validTranscriptionFile, hmime, hext]
    unfold transcribe_route
    by_cases hfn : filename = ""
    · rw [if_pos hfn]
      exact ⟨⟨"Invalid file: filename missing.", rfl⟩, rfl⟩
    · rw [if_neg hfn, if_neg (by simp [hval])]
      exact ⟨⟨"Invalid file type.", rfl⟩, rfl⟩

/-- C6, witness: "talk.mp3" with an unrecognized content type is accepted
and the provider is invoked once; "note.ogg" with content type "audio/ogg"
(neither accepted) is rejected with a 400 and the provider is never
invoked. -/
theorem transcribe_extension_fallback_witness :
    (transcribe_route (Option.some ⟨"key"⟩) "talk.mp3" "application/octet-stream"
        (.ok "hello")).providerCalls = 1 ∧
      ((∃ msg, (transcribe_route (Option.some ⟨"key"⟩) "note.ogg" "audio/ogg"
            (.ok "hello")).result = .error ⟨400, msg⟩) ∧
        (transcribe_route (Option.some ⟨"key"⟩) "note.ogg" "audio/ogg"
            (.ok "hello")).providerCalls = 0) :=
  ⟨(transcribe_extension_fallback ⟨"key"⟩ "talk.mp3" "application/octet-stream"
        (.ok "hello")).1 (by decide) (by decide),
   (transcribe_extension_fallback ⟨"key"⟩ "note.ogg" "audio/ogg"
        (.ok "hello")).2 (by decide) (by decide)⟩

theorem isPre_nil (s : List Char) : isPre [] s = true := by
  cases s <;> rfl

theorem isPre_self_append (x y : List Char) : isPre x (x ++ y) = true := by
  induction x with
  | nil => exact isPre_nil y
  | cons a as ih => simp [isPre, ih]

theorem isPre_refl (x : List Char) : isPre x x = true := by
  simpa using isPre_self_append x []

theorem length_le_of_isPre : ∀ {x y : List Char}, isPre x y = true → x.length ≤ y.length := by
  intro x
  induction x with
  | nil => intro y _; simp
  | cons a as ih =>
    intro y h
    cases y with
    | nil => simp [isPre] at h
    | cons b bs =>
      simp only [isPre, Bool.and_eq_true] at h
      simpa [Nat.succ_le_succ_iff] using ih h.2

theorem eq_of_isPre_of_le : ∀ {x y : List Char},
    isPre x y = true → y.length ≤ x.length → x = y := by
  intro x
  induction x with
  | nil =>
    intro y _ hl
    cases y with
    | nil => rfl
    | cons b bs => simp at hl
  | cons a as ih =>
    intro y h hl
    cases y with
    | nil => simp [isPre] at h
    | cons b bs =>
      simp only [isPre, Bool.and_eq_true, beq_iff_eq] at h
      have := ih h.2 (by simpa [Nat.succ_le_succ_iff] using hl)
      rw [h.1, this]

theorem isPre_append_left : ∀ {x y z : List Char},
    isPre x (y ++ z) = true → x.length ≤ y.length → isPre x y = true := by
  intro x
  induction x with
  | nil => intro y z _ _; exact isPre_nil y
  | cons a as ih =>
    intro y z h hl
    cases y with
    | nil => simp at hl
    | cons b bs =>
      simp only [List.cons_append, isPre, Bool.and_eq_true] at h
      simp only [isPre, Bool.and_eq_true]
      exact ⟨h.1, ih h.2 (by simpa [Nat.succ_le_succ_iff] using hl)⟩

theorem isPre_append_cases : ∀ {pat : List Char} (y : List Char) {X : List Char},
    isPre pat (y ++ X) = true →
      isPre pat y = true ∨
        (isPre y pat = true ∧ isPre (List.drop y.length pat) X = true) := by
  intro pat y
  induction y generalizing pat with
  | nil =>
    intro X h
    exact Or.inr ⟨isPre_nil pat, by simpa using h⟩
  | cons b bs ih =>
    intro X h
    cases pat with
    | nil => exact Or.inl (isPre_nil _)
    | cons p ps =>
      simp only [List.cons_append, isPre, Bool.and_eq_true, beq_iff_eq] at h
      rcases ih h.2 with h1 | ⟨h2, h3⟩
      · exact Or.inl (by simp [isPre, h.1, h1])
      · refine Or.inr ⟨by simp [isPre, h.1.symm, h2], ?_⟩
        simpa using h3

theorem occursIn_of_isPre {pat s : List Char} (hp : pat ≠ []) (h : isPre pat s = true) :
    occursIn pat s = true := by
  cases s with
  | nil =>
    cases pat with
    | nil => exact absurd rfl hp
    | cons p ps => simp [isPre] at h
  | cons c t => simp [occursIn, h]

theorem occursIn_append_sub {pat R : List Char} (sub : List Char) (hp : pat ≠ [])
    (hd : ∀ ch ∈ sub, ch ∉ pat) (hR : occursIn pat R = false) :
    occursIn pat (sub ++ R) = false := by
  induction sub with
  | nil => simpa using hR
  | cons x xs ih =>
    have hx : x ∉ pat := hd x (by simp)
    have hxs : ∀ ch ∈ xs, ch ∉ pat := fun ch hch => hd ch (by simp [hch])
    cases pat with
    | nil => exact absurd rfl hp
    | cons p ps =>
      simp only [List.cons_append, occursIn, Bool.or_eq_false_iff]
      refine ⟨?_, ih hxs⟩
      cases hpe : p == x with
      | false => simp [isPre, hpe]
      | true =>
        have heq := eq_of_beq hpe
        subst heq
        exact absurd (List.mem_cons_self p ps) hx

theorem replaceAllAux_skip (pat sub : List Char) :
    ∀ (t : List Char) (k : Nat),
      replaceAllAux pat sub t k = replaceAll pat sub (List.drop k t) := by
  intro t
  induction t with
  | nil => intro k; simp [replaceAllAux, replaceAll]
  | cons c t ih =>
    intro k
    cases k with
    | zero => simp [replaceAll]
    | succ k => simpa [replaceAllAux] using ih k

theorem replaceAll_nil (pat sub : List Char) : replaceAll pat sub [] = [] := rfl

theorem replaceAll_cons (pat sub : List Char) (c : Char) (t : List Char) :
    replaceAll pat sub (c :: t) =
      if isPre pat (c :: t) then
        sub ++ replaceAll pat sub (List.drop (pat.length - 1) t)
      else c :: replaceAll pat sub t := by
  show replaceAllAux pat sub (c :: t) 0 = _
  simp only [replaceAllAux, replaceAllAux_skip]
  rfl

theorem isPre_of_isPre_replaceAll {pat sub : List Char} (hsub : sub ≠ []) :
    ∀ (n : Nat) (t ds : List Char), t.length ≤ n → (∀ ch ∈ ds, ch ∉ sub) →
      isPre ds (replaceAll pat sub t) = true → isPre ds t = true := by
  intro n
  induction n with
  | zero =>
    intro t ds hn hds h
    have ht : t = [] := List.eq_nil_of_length_eq_zero (Nat.le_zero.mp hn)
    subst ht
    rw [replaceAll_nil] at h
    cases ds with
    | nil => exact isPre_nil _
    | cons d ds' => simp [isPre] at h
  | succ n ih =>
    intro t ds hn hds h
    cases t with
    | nil =>
      rw [replaceAll_nil] at h
      cases ds with
      | nil => exact isPre_nil _
      | cons d ds' => simp [isPre] at h
    | cons c t' =>
      rw [replaceAll_cons] at h
      by_cases hm : isPre pat (c :: t') = true
      · rw [if_pos hm] at h
        cases ds with
        | nil => exact isPre_nil _
        | cons d ds' =>
          cases sub with
          | nil => exact absurd rfl hsub
          | cons s1 sr =>
            simp only [List.cons_append, isPre, Bool.and_eq_true, beq_iff_eq] at h
            have hd : d ∉ s1 :: sr := hds d (by simp)
            rw [h.1] at hd
            exact absurd (List.mem_cons_self s1 sr) hd
      · rw [if_neg hm] at h
        cases ds with
        | nil => exact isPre_nil _
        | cons d ds' =>
          simp only [isPre, Bool.and_eq_true] at h ⊢
          refine ⟨h.1, ?_⟩
          have hds' : ∀ ch ∈ ds', ch ∉ sub := fun ch hch => hds ch (by simp [hch])
          exact ih t' ds' (by simpa [Nat.succ_le_succ_iff] using hn) hds' h.2

theorem occursIn_replaceAll {pat sub : List Char} (hpat : pat ≠ []) (hsub : sub ≠ [])
    (hd1 : ∀ ch ∈ sub, ch ∉ pat) (hd2 : ∀ ch ∈ pat, ch ∉ sub) :
    ∀ (n : Nat) (t : List Char), t.length ≤ n →
      occursIn pat (replaceAll pat sub t) = false := by
  intro n
  induction n with
  | zero =>
    intro t hn
    have ht : t = [] := List.eq_nil_of_length_eq_zero (Nat.le_zero.mp hn)
    subst ht
    rfl
  | succ n ih =>
    intro t hn
    cases t with
    | nil => rfl
    | cons c t' =>
      rw [replaceAll_cons]
      have hn' : t'.length ≤ n := by simpa [Nat.succ_le_succ_iff] using hn
      by_cases hm : isPre pat (c :: t') = true
      · rw [if_pos hm]
        have hR : occursIn pat (replaceAll pat sub (List.drop (pat.length - 1) t')) = false := by
          refine ih _ ?_
          calc (List.drop (pat.length - 1) t').length ≤ t'.length := by
                simp [List.length_drop]
            _ ≤ n := hn'
        exact occursIn_append_sub sub hpat hd1 hR
      · rw [if_neg hm]
        have hR : occursIn pat (replaceAll pat sub t') = false := ih t' hn'
        have hpre : isPre pat (c :: replaceAll pat sub t') = false := by
          cases hval : isPre pat (c :: replaceAll pat sub t') with
          | false => rfl
          | true =>
            exfalso
            cases pat with
            | nil => exact hpat rfl
            | cons p pr =>
              simp only [isPre, Bool.and_eq_true] at hval
              have hmem : ∀ ch ∈ pr, ch ∉ sub :=
                fun ch hch => hd2 ch (List.mem_cons_of_mem p hch)
              have hpr : isPre pr t' = true :=
                isPre_of_isPre_replaceAll hsub n t' pr hn' hmem hval.2
              exact hm (by simp [isPre, hval.1, hpr])
        simp [occursIn, hpre, hR]

theorem drop_len_append (x y : List Char) : List.drop x.length (x ++ y) = y := by
  induction x with
  | nil => rfl
  | cons a as ih => simp [ih]

theorem splitFirst_append {pat : List Char} (hpat : pat ≠ []) (hnb : noBorder pat) :
    ∀ (p a : List Char), occursIn pat p = false →
      splitFirst pat (p ++ (pat ++ a)) = Option.some (p, a) := by
  intro p
  induction p with
  | nil =>
    intro a _
    cases pat with
    | nil => exact absurd rfl hpat
    | cons q qs =>
      show splitFirst (q :: qs) (q :: (qs ++ a)) = _
      rw [splitFirst,
        if_pos (show isPre (q :: qs) (q :: (qs ++ a)) = true from isPre_self_append (q :: qs) a)]
      simp [drop_len_append]
  | cons b bs ih =>
    intro a hocc
    simp only [occursIn, Bool.or_eq_false_iff] at hocc
    have hne : isPre pat (b :: (bs ++ (pat ++ a))) = false := by
      cases hval : isPre pat (b :: (bs ++ (pat ++ a))) with
      | false => rfl
      | true =>
        exfalso
        rcases isPre_append_cases (b :: bs)
            (show isPre pat ((b :: bs) ++ (pat ++ a)) = true from hval) with h1 | ⟨h2, h3⟩
        · rw [hocc.1] at h1
          cases h1
        · by_cases hk : (b :: bs).length < pat.length
          · have h4 : isPre (List.drop (b :: bs).length pat) pat = true := by
              refine isPre_append_left h3 ?_
              simp [List.length_drop]
            have h5 := hnb (b :: bs).length (by simp) hk
            rw [h5] at h4
            cases h4
          · have h6 : (b :: bs) = pat := eq_of_isPre_of_le h2 (Nat.le_of_not_lt hk)
            have h7 : isPre pat (b :: bs) = true := by
              rw [← h6]; exact isPre_refl _
            rw [hocc.1] at h7
            cases h7
    show splitFirst pat (b :: (bs ++ (pat ++ a))) = _
    rw [splitFirst, if_neg (by simp [hne]), ih a hocc.2]

theorem sectionDelim_noBorder : noBorder sectionDelim := by
  intro k h1 h2
  have h8 : k < 8 := by simpa [sectionDelim] using h2
  interval_cases k <;> decide

/-- C4: for any provider reasoning text containing the section-delimiter
sequence, the composed document still parses into exactly two sections —
the sanitized reasoning followed by the final answer — and the reasoning
section contains zero occurrences of the raw delimiter sequence (every
occurrence having been replaced by the non-colliding substitute). -/
theorem compose_sanitize_two_sections (r mainText : List Char)
    (h : occursIn sectionDelim r = true) :
    parseSections (composeChat mainText (Option.some r)) =
        Option.some (sanitizeReasoning r, mainText) ∧
      occursIn sectionDelim (sanitizeReasoning r) = false := by
  have hr : r ≠ [] := by
    intro hr
    subst hr
    simp [occursIn] at h
  have hd1 : ∀ ch ∈ delimSubstitute, ch ∉ sectionDelim := by decide
  have hd2 : ∀ ch ∈ sectionDelim, ch ∉ delimSubstitute := by decide
  have hpat : sectionDelim ≠ [] := by decide
  have hsub : delimSubstitute ≠ [] := by decide
  have hno : occursIn sectionDelim (sanitizeReasoning r) = false :=
    occursIn_replaceAll hpat hsub hd1 hd2 r.length r (Nat.le_refl _)
  refine ⟨?_, hno⟩
  show splitFirst sectionDelim (composeChat mainText (Option.some r)) = _
  simp only [composeChat]
  rw [if_neg hr]
  have hsp := splitFirst_append hpat sectionDelim_noBorder (sanitizeReasoning r) mainText hno
  simpa [List.append_assoc] using hsp

/-- C4, witness: a concrete reasoning text containing the delimiter is
sanitized and the composed document parses into the two expected
sections. -/
theorem compose_sanitize_two_sections_witness :
    occursIn sectionDelim ['x', '<', 'A', 'N', 'S', 'W', 'E', 'R', '>', 'y'] = true ∧
      (parseSections (composeChat ['m']
            (Option.some ['x', '<', 'A', 'N', 'S', 'W', 'E', 'R', '>', 'y'])) =
          Option.some
            (sanitizeReasoning ['x', '<', 'A', 'N', 'S', 'W', 'E', 'R', '>', 'y'], ['m']) ∧
        occursIn sectionDelim
            (sanitizeReasoning ['x', '<', 'A', 'N', 'S', 'W', 'E', 'R', '>', 'y']) = false) :=
  ⟨by decide,
   compose_sanitize_two_sections ['x', '<', 'A', 'N', 'S', 'W', 'E', 'R', '>', 'y'] ['m']
     (by decide)⟩

end MasbroBackend
